import Mathlib

/-!
Shallow embedding of the expense-tracker page `src/client/pages/Index.tsx`.

The whole program is one React component holding a list of expense records
in component state.  We embed:

* the `Expense` record interface,
* the `addExpense` handler (validation via `trim` / `parseFloat`, prepend),
* the `deleteExpense` handler (`filter` on id),
* the derived aggregates `totalExpenses`, `monthlyExpenses`, `topCategory`,
* the localStorage persistence: the slot is abstracted by the outcome of
  `JSON.parse` on its text (`Slot`), and the post-load component state by
  `LoadedState`, which can hold a non-expense JSON value adopted
  unvalidated — `setExpenses(JSON.parse(savedExpenses))` performs no
  shape checking,
* a small operational semantics (`Op`, `run`) for sequences of add/delete
  intents, used for the store invariant.

Modelling conventions:
* JavaScript numbers are modelled as exact rationals (`ℚ`); the amounts in
  play are decimal currency values and no claim concerns float rounding.
  At the validation boundary JS numbers are modelled by `JsFloat` (finite
  rational, `+Infinity`, `-Infinity`; `NaN` as parse failure), so that
  `parseFloat("Infinity")` and the `isNaN`/`<= 0` checks behave as in JS.
  The one state the rational record model cannot represent — a stored
  `+Infinity` amount, reachable only by submitting an amount string
  denoting Infinity — is mapped to `0` by `jsFloatToRat` at that
  boundary; theorems about such inputs assert only the validation
  outcome, never the stored amount.
* Environment inputs of a handler call (the clock `Date.now()` and today's
  ISO date string `new Date().toISOString().split("T")[0]`) are explicit
  parameters.
* JS builtins used by the code (`String.prototype.trim`, `parseFloat`,
  `Number.prototype.toString`, ISO-date parsing by `new Date`) are modelled
  by executable Lean functions below, faithful to their behaviour on the
  inputs the program can produce.
-/

/-- The `Expense` interface of `Index.tsx`: id, description, amount,
category and ISO date string. -/
structure Expense where
  id : String
  description : String
  amount : ℚ
  category : String
  date : String
deriving DecidableEq

/-- The fixed `CATEGORIES` array of `Index.tsx`. -/
def CATEGORIES : List String :=
  ["Food", "Transport", "Entertainment", "Shopping", "Utilities",
   "Healthcare", "Other"]

/-- JS whitespace recognised by `String.prototype.trim` (ASCII part: space,
tab, line feed, carriage return, vertical tab, form feed). -/
def isJsWhitespace (c : Char) : Bool :=
  c == ' ' || c == '\t' || c == '\n' || c == '\r' ||
  c == Char.ofNat 11 || c == Char.ofNat 12

/-- Model of `String.prototype.trim`: drop leading and trailing
whitespace. -/
def jsTrim (s : String) : String :=
  ⟨((s.data.dropWhile isJsWhitespace).reverse.dropWhile isJsWhitespace).reverse⟩

/-- Numeric value of a decimal digit character. -/
def digitVal (c : Char) : Nat := c.toNat - 48

/-- Value of a big-endian list of decimal digit characters. -/
def natOfDigits (ds : List Char) : Nat :=
  ds.foldl (fun a c => 10 * a + digitVal c) 0

/-- Exponent part recognised by `parseFloat` after the mantissa:
`e`/`E`, optional sign, digits; an incomplete exponent is ignored
(`parseFloat("10e")` is `10`). -/
def expOf (cs : List Char) : Int :=
  match cs with
  | 'e' :: '-' :: r2 =>
      let ds := r2.takeWhile (fun c => c.isDigit)
      if ds.isEmpty then 0 else -(natOfDigits ds : Int)
  | 'E' :: '-' :: r2 =>
      let ds := r2.takeWhile (fun c => c.isDigit)
      if ds.isEmpty then 0 else -(natOfDigits ds : Int)
  | 'e' :: '+' :: r2 =>
      let ds := r2.takeWhile (fun c => c.isDigit)
      if ds.isEmpty then 0 else (natOfDigits ds : Int)
  | 'E' :: '+' :: r2 =>
      let ds := r2.takeWhile (fun c => c.isDigit)
      if ds.isEmpty then 0 else (natOfDigits ds : Int)
  | 'e' :: r2 =>
      let ds := r2.takeWhile (fun c => c.isDigit)
      if ds.isEmpty then 0 else (natOfDigits ds : Int)
  | 'E' :: r2 =>
      let ds := r2.takeWhile (fun c => c.isDigit)
      if ds.isEmpty then 0 else (natOfDigits ds : Int)
  | _ => 0

/-- Syntactic phase of `parseFloat`: skip leading whitespace, optional
sign, integer digits, optional fraction, optional exponent; returns the
pieces of the longest valid numeric prefix, or `none` when no digit is
found (the `NaN` case). -/
def scanFloat (cs : List Char) : Option (Bool × List Char × List Char × Int) :=
  let cs0 := cs.dropWhile isJsWhitespace
  let neg : Bool := match cs0 with
    | '-' :: _ => true
    | _ => false
  let cs1 : List Char := match cs0 with
    | '-' :: rest => rest
    | '+' :: rest => rest
    | _ => cs0
  let intDs := cs1.takeWhile (fun c => c.isDigit)
  let rest1 := cs1.dropWhile (fun c => c.isDigit)
  let fracDs : List Char := match rest1 with
    | '.' :: r => r.takeWhile (fun c => c.isDigit)
    | _ => []
  let rest2 : List Char := match rest1 with
    | '.' :: r => r.dropWhile (fun c => c.isDigit)
    | _ => rest1
  if intDs.isEmpty && fracDs.isEmpty then none
  else some (neg, intDs, fracDs, expOf rest2)

/-- Numeric phase of `parseFloat`: the rational value of the scanned
sign, integer digits, fraction digits and exponent. -/
def ratOfParts : Bool × List Char × List Char × Int → ℚ
  | (neg, intDs, fracDs, ex) =>
    (if neg then -1 else 1) *
      ((natOfDigits intDs : ℚ) + (natOfDigits fracDs : ℚ) / (10 : ℚ) ^ fracDs.length) *
      (10 : ℚ) ^ ex

/-- A JS number as `parseFloat` can produce it: a finite value (exact
rational), `+Infinity` or `-Infinity`.  `NaN` is represented as parse
failure (`none`) by `parseFloat`. -/
inductive JsFloat where
  | val (q : ℚ) : JsFloat
  | inf : JsFloat
  | negInf : JsFloat
deriving DecidableEq

instance (n : Nat) : OfNat JsFloat n := ⟨JsFloat.val (OfNat.ofNat n)⟩

/-- The `Infinity` literal recognised by JS `parseFloat`: after leading
whitespace and an optional sign, the characters `Infinity` (anything may
follow); returns the sign when recognised. -/
def infinityScan (cs : List Char) : Option Bool :=
  let cs0 := cs.dropWhile isJsWhitespace
  let neg : Bool := match cs0 with
    | '-' :: _ => true
    | _ => false
  let cs1 : List Char := match cs0 with
    | '-' :: rest => rest
    | '+' :: rest => rest
    | _ => cs0
  match cs1 with
  | 'I' :: 'n' :: 'f' :: 'i' :: 'n' :: 'i' :: 't' :: 'y' :: _ => some neg
  | _ => none

/-- Model of JS `parseFloat`: the `Infinity` literal yields `±Infinity`;
otherwise the longest valid numeric prefix is converted, and `none`
stands for `NaN` (no digit found).  The two recognisers are exclusive: a
numeric prefix starts with a digit or `.`, the literal with `I`. -/
def parseFloat (s : String) : Option JsFloat :=
  match infinityScan s.data with
  | some neg => some (if neg then JsFloat.negInf else JsFloat.inf)
  | none => (scanFloat s.data).map (fun p => JsFloat.val (ratOfParts p))

/-- The `numAmount <= 0` test of `Index.tsx` on a parsed value:
`Infinity <= 0` is false (so `+Infinity` passes validation),
`-Infinity <= 0` is true. -/
def jsLeZero : JsFloat → Bool
  | JsFloat.val q => decide (q ≤ 0)
  | JsFloat.inf => false
  | JsFloat.negInf => true

/-- The rational amount stored in the record model.  `+Infinity` — the
only non-finite value that survives validation — lies outside the
rational value model and is mapped to `0` as an explicit model boundary;
theorems about Infinity inputs assert only the validation outcome, never
this stored amount. -/
def jsFloatToRat : JsFloat → ℚ
  | JsFloat.val q => q
  | JsFloat.inf => 0
  | JsFloat.negInf => 0

/-- Model of JS `Number.prototype.toString()` on the natural value of
`Date.now()`: decimal numeral, built from `Nat.digits`. -/
def natToString (n : Nat) : String :=
  if n = 0 then "0" else ⟨((Nat.digits 10 n).map Nat.digitChar).reverse⟩

/-- Model of the `addExpense` handler.  Inputs: the clock value `now`
(`Date.now()`), `today` (`new Date().toISOString().split("T")[0]`), the three
form fields and the current `expenses` state.  Returns the new `expenses`
state together with the validation-error toast message, if any; on a
validation error the state is returned unchanged (the handler returns early
without calling `setExpenses`). -/
def addExpense (now : Nat) (today description amount category : String)
    (expenses : List Expense) : List Expense × Option String :=
  if jsTrim description == "" || jsTrim amount == "" then
    (expenses, some "Please fill in all fields")
  else
    match parseFloat amount with
    | none => (expenses, some "Please enter a valid amount")
    | some numAmount =>
      if jsLeZero numAmount then (expenses, some "Please enter a valid amount")
      else
        ({ id := natToString now, description := jsTrim description,
           amount := jsFloatToRat numAmount, category := category,
           date := today } :: expenses,
         none)

/-- Model of the `deleteExpense` handler:
`expenses.filter((exp) => exp.id !== id)`. -/
def deleteExpense (id : String) (expenses : List Expense) : List Expense :=
  expenses.filter (fun e => e.id != id)

/-- Model of `totalExpenses`:
`expenses.reduce((sum, exp) => sum + exp.amount, 0)`. -/
def totalExpenses (expenses : List Expense) : ℚ :=
  expenses.foldl (fun sum e => sum + e.amount) 0

/-- Model of `new Date(s)` on an ISO `YYYY-MM-DD` string: returns
`(year, month, day)` when the string is a well-formed date, `none`
for an Invalid Date. -/
def parseISODate (s : String) : Option (Nat × Nat × Nat) :=
  match s.data with
  | [y1, y2, y3, y4, '-', m1, m2, '-', d1, d2] =>
    if ([y1, y2, y3, y4, m1, m2, d1, d2].all (fun c => c.isDigit)) then
      let y := natOfDigits [y1, y2, y3, y4]
      let m := natOfDigits [m1, m2]
      let d := natOfDigits [d1, d2]
      if 1 ≤ m && m ≤ 12 && 1 ≤ d && d ≤ 31 then some (y, m, d) else none
    else none
  | _ => none

/-- The month/year test of the `monthlyExpenses` filter:
`expDate.getMonth() === today.getMonth() && expDate.getFullYear() ===
today.getFullYear()`, with the reference date given as `(todayY, todayM)`.
An Invalid Date has `NaN` components, which compare unequal. -/
def sameMonthAs (todayY todayM : Nat) (dateStr : String) : Bool :=
  match parseISODate dateStr with
  | some (y, m, _) => y == todayY && m == todayM
  | none => false

/-- Model of `monthlyExpenses`: filter the records dated in the reference
month, then reduce to a sum. -/
def monthlyExpenses (todayY todayM : Nat) (expenses : List Expense) : ℚ :=
  (expenses.filter (fun e => sameMonthAs todayY todayM e.date)).foldl
    (fun sum e => sum + e.amount) 0

/-- One step of the `categoryTotals` accumulation:
`categoryTotals[exp.category] = (categoryTotals[exp.category] || 0) +
exp.amount`, on an association list that keeps JS object key insertion
order. -/
def updateTotals (acc : List (String × ℚ)) (cat : String) (amt : ℚ) :
    List (String × ℚ) :=
  match acc with
  | [] => [(cat, amt)]
  | (c, v) :: rest =>
    if c == cat then (c, v + amt) :: rest
    else (c, v) :: updateTotals rest cat amt

/-- Model of the `categoryTotals` object: per-category sums, keyed in
first-encountered order (JS object key insertion order, as enumerated by
`Object.entries`). -/
def categoryTotals (expenses : List Expense) : List (String × ℚ) :=
  expenses.foldl (fun acc e => updateTotals acc e.category e.amount) []

/-- Stable insertion for descending order by value: the new element passes
only elements strictly greater, so among equal values the earlier element
stays first — the tie behaviour of JS stable `sort` with comparator
`(a, b) => b - a`. -/
def insertDesc (x : String × ℚ) : List (String × ℚ) → List (String × ℚ)
  | [] => [x]
  | y :: ys => if x.2 < y.2 then y :: insertDesc x ys else x :: y :: ys

/-- Stable descending sort by value, modelling
`Object.entries(categoryTotals).sort(([, a], [, b]) => b - a)`. -/
def sortDesc : List (String × ℚ) → List (String × ℚ)
  | [] => []
  | x :: xs => insertDesc x (sortDesc xs)

/-- Model of `topCategory`: the first entry of the sorted category totals
(`[0]`), or `none` (`undefined`) when there are no records. -/
def topCategory (expenses : List Expense) : Option (String × ℚ) :=
  (sortDesc (categoryTotals expenses)).head?

/-- JSON values, the codomain of `JSON.parse` / domain of
`JSON.stringify`. -/
inductive Json where
  | null : Json
  | bool (b : Bool) : Json
  | num (q : ℚ) : Json
  | str (s : String) : Json
  | arr (xs : List Json) : Json
  | obj (fields : List (String × Json)) : Json

/-- `JSON.stringify` of one expense record, at the JSON-value level: an
object with the five fields in declaration order. -/
def encodeExpense (e : Expense) : Json :=
  Json.obj [("id", Json.str e.id), ("description", Json.str e.description),
            ("amount", Json.num e.amount), ("category", Json.str e.category),
            ("date", Json.str e.date)]

/-- `JSON.stringify(expenses)` at the JSON-value level: an array of record
objects. -/
def save (expenses : List Expense) : Json :=
  Json.arr (expenses.map encodeExpense)

/-- Field lookup in a JSON object. -/
def getField (fields : List (String × Json)) (key : String) : Option Json :=
  fields.lookup key

/-- Whether a JSON value is (representable as) one expense record: the
five fields present with the right primitive types.  This is the model's
representation relation between JSON values and `Expense`, not a
validation step of the program — the program performs none. -/
def decodeExpense (j : Json) : Option Expense :=
  match j with
  | Json.obj fields =>
    match getField fields "id", getField fields "description",
        getField fields "amount", getField fields "category",
        getField fields "date" with
    | some (Json.str id), some (Json.str description), some (Json.num amount),
        some (Json.str category), some (Json.str date) =>
      some { id := id, description := description, amount := amount,
             category := category, date := date }
    | _, _, _, _, _ => none
  | _ => none

/-- Whether a JSON value is (representable as) a list of expense
records: an array of record objects.  Again the model's representation
relation, not program behaviour. -/
def decodeExpenses (j : Json) : Option (List Expense) :=
  match j with
  | Json.arr xs => xs.mapM decodeExpense
  | _ => none

/-- The persisted slot, abstracted by the outcome of `JSON.parse` on its
text: `absent` models `getItem` returning `null`; `malformed` a text on
which `JSON.parse` throws a SyntaxError; `wellFormed j` a text whose
parse evaluates to the JSON value `j`.  The text↔value correspondence of
well-formed JSON documents is the abstraction; no behaviour of the
program depends on the concrete text. -/
inductive Slot where
  | absent : Slot
  | malformed : Slot
  | wellFormed (j : Json) : Slot

/-- The component state after the load-on-mount effect.
`setExpenses(JSON.parse(savedExpenses))` performs no validation, so the
adopted runtime value need not be an expense array: `records l` is the
state when the parsed value is representable as a list of expense
records, `raw j` the state when it is any other JSON value, adopted
as-is (a TypeScript type-unsoundness the code permits). -/
inductive LoadedState where
  | records (l : List Expense) : LoadedState
  | raw (j : Json) : LoadedState

/-- Model of the load-on-mount effect: an absent slot leaves the initial
empty list (`if (savedExpenses)` is false); a malformed slot throws in
`JSON.parse`, the `catch` swallows the error and the initial empty list
remains; a well-formed slot's parsed value is adopted as the state
unvalidated — as a record list when it is one, as the raw JSON value
otherwise. -/
def load (slot : Slot) : LoadedState :=
  match slot with
  | Slot.absent => LoadedState.records []
  | Slot.malformed => LoadedState.records []
  | Slot.wellFormed j =>
    match decodeExpenses j with
    | some l => LoadedState.records l
    | none => LoadedState.raw j

/-- User intents dispatched to the store: the submit of the add form
(with its environment inputs) and a per-row delete. -/
inductive Op where
  | add (now : Nat) (today description amount category : String) : Op
  | remove (id : String) : Op
deriving DecidableEq

/-- Effect of one intent on the `expenses` state. -/
def applyOp (expenses : List Expense) : Op → List Expense
  | Op.add now today description amount category =>
    (addExpense now today description amount category expenses).1
  | Op.remove id => deleteExpense id expenses

/-- The `expenses` state reached from the initial empty list by a sequence
of intents. -/
def run (ops : List Op) : List Expense :=
  ops.foldl applyOp []

/-- The clock values of the add intents of a sequence. -/
def addTimes : List Op → List Nat
  | [] => []
  | Op.add now _ _ _ _ :: rest => now :: addTimes rest
  | Op.remove _ :: rest => addTimes rest

/-! ## Helper lemmas -/

theorem parseFloat_of_scan (s : String) (p : Bool × List Char × List Char × Int)
    (hi : infinityScan s.data = none) (h : scanFloat s.data = some p) :
    parseFloat s = some (JsFloat.val (ratOfParts p)) := by
  simp [parseFloat, hi, h]

theorem dropWhile_head_false {p : Char → Bool} (l : List Char) :
    ∀ {c : Char} {cs : List Char}, l.dropWhile p = c :: cs → p c = false := by
  induction l with
  | nil => intro c cs h; simp [List.dropWhile] at h
  | cons a t ih =>
    intro c cs h
    by_cases hpa : p a = true
    · rw [List.dropWhile_cons_of_pos hpa] at h
      exact ih h
    · rw [List.dropWhile_cons_of_neg hpa] at h
      cases h
      simpa using hpa

theorem dropWhile_eq_nil_of_forall {p : Char → Bool} {l : List Char}
    (h : ∀ x ∈ l.dropWhile p, p x = true) : l.dropWhile p = [] := by
  cases hd : l.dropWhile p with
  | nil => rfl
  | cons c cs =>
    have h1 : p c = false := dropWhile_head_false l hd
    have h2 : p c = true := h c (by rw [hd]; exact List.mem_cons_self c cs)
    rw [h1] at h2
    cases h2

theorem jsTrim_empty_dropWhile {s : String} (h : jsTrim s = "") :
    s.data.dropWhile isJsWhitespace = [] := by
  have hdata : (((s.data.dropWhile isJsWhitespace).reverse.dropWhile
      isJsWhitespace).reverse) = [] := congrArg String.data h
  rw [List.reverse_eq_nil_iff] at hdata
  have hall : ∀ x ∈ (s.data.dropWhile isJsWhitespace).reverse, isJsWhitespace x = true := by
    rw [← List.dropWhile_eq_nil_iff]
    exact hdata
  refine dropWhile_eq_nil_of_forall ?_
  intro x hx
  exact hall x (List.mem_reverse.mpr hx)

theorem scanFloat_none_of_trim_empty {s : String} (h : jsTrim s = "") :
    scanFloat s.data = none := by
  have hd := jsTrim_empty_dropWhile h
  simp [scanFloat, hd]

theorem infinityScan_none_of_trim_empty {s : String} (h : jsTrim s = "") :
    infinityScan s.data = none := by
  have hd := jsTrim_empty_dropWhile h
  simp [infinityScan, hd]

theorem parseFloat_some_trim_ne {s : String} {v : JsFloat}
    (h : parseFloat s = some v) : jsTrim s ≠ "" := by
  intro htrim
  simp [parseFloat, infinityScan_none_of_trim_empty htrim,
    scanFloat_none_of_trim_empty htrim] at h

theorem foldl_add_amount (l : List Expense) (s : ℚ) :
    l.foldl (fun sum e => sum + e.amount) s = s + (l.map (fun e => e.amount)).sum := by
  induction l generalizing s with
  | nil => simp
  | cons e t ih => simp [ih, add_assoc]

theorem parseFloat_ten : parseFloat "10" = some (JsFloat.val 10) := by
  rw [parseFloat_of_scan "10" (false, ['1', '0'], [], 0) (by decide) (by decide)]
  norm_num [ratOfParts, show natOfDigits ['1', '0'] = 10 from by decide,
    show natOfDigits ([] : List Char) = 0 from by decide]

theorem parseFloat_one : parseFloat "1" = some (JsFloat.val 1) := by
  rw [parseFloat_of_scan "1" (false, ['1'], [], 0) (by decide) (by decide)]
  norm_num [ratOfParts, show natOfDigits ['1'] = 1 from by decide,
    show natOfDigits ([] : List Char) = 0 from by decide]

theorem parseFloat_neg_five : parseFloat "-5" = some (JsFloat.val (-5)) := by
  rw [parseFloat_of_scan "-5" (true, ['5'], [], 0) (by decide) (by decide)]
  norm_num [ratOfParts, show natOfDigits ['5'] = 5 from by decide,
    show natOfDigits ([] : List Char) = 0 from by decide]

theorem parseFloat_abc : parseFloat "abc" = none := by
  simp [parseFloat, show infinityScan "abc".data = none from by decide,
    show scanFloat "abc".data = none from by decide]

theorem parseFloat_ten_abc : parseFloat "10abc" = some (JsFloat.val 10) := by
  rw [parseFloat_of_scan "10abc" (false, ['1', '0'], [], 0) (by decide) (by decide)]
  norm_num [ratOfParts, show natOfDigits ['1', '0'] = 10 from by decide,
    show natOfDigits ([] : List Char) = 0 from by decide]

theorem parseFloat_infinity : parseFloat "Infinity" = some JsFloat.inf := by
  simp [parseFloat, show infinityScan "Infinity".data = some false from by decide]

theorem addExpense_success (now : Nat) (today desc amt cat : String)
    (l : List Expense) (q : ℚ) (hd : jsTrim desc ≠ "")
    (hq : parseFloat amt = some (JsFloat.val q)) (hpos : 0 < q) :
    addExpense now today desc amt cat l =
      ({ id := natToString now, description := jsTrim desc, amount := q,
         category := cat, date := today } :: l, none) := by
  have hamt : jsTrim amt ≠ "" := parseFloat_some_trim_ne hq
  have h1 : (jsTrim desc == "") = false := beq_eq_false_iff_ne.mpr hd
  have h2 : (jsTrim amt == "") = false := beq_eq_false_iff_ne.mpr hamt
  rw [addExpense, h1, h2]
  simp only [Bool.or_self, Bool.false_eq_true, if_false, hq]
  rw [if_neg (by simp [jsLeZero]; exact hpos : ¬ jsLeZero (JsFloat.val q) = true)]
  rfl

theorem addExpense_state_cases (now : Nat) (today desc amt cat : String)
    (l : List Expense) :
    ((addExpense now today desc amt cat l).1 = l ∧
      (addExpense now today desc amt cat l).2 ≠ none) ∨
    (jsTrim desc ≠ "" ∧ jsTrim amt ≠ "" ∧
      ∃ v, parseFloat amt = some v ∧ jsLeZero v = false ∧
        addExpense now today desc amt cat l =
          ({ id := natToString now, description := jsTrim desc,
             amount := jsFloatToRat v, category := cat, date := today } :: l,
           none)) := by
  by_cases h : (jsTrim desc == "" || jsTrim amt == "") = true
  · left
    rw [addExpense, if_pos h]
    exact ⟨rfl, by simp⟩
  · have h' := h
    rw [Bool.or_eq_true, not_or] at h'
    obtain ⟨h1, h2⟩ := h'
    cases hpf : parseFloat amt with
    | none =>
      left
      rw [addExpense, if_neg h, hpf]
      exact ⟨rfl, by simp⟩
    | some v =>
      by_cases hq : jsLeZero v = true
      · left
        rw [addExpense, if_neg h, hpf]
        simp only [if_pos hq]
        exact ⟨by simp, by simp⟩
      · right
        refine ⟨by simpa using h1, by simpa using h2, v, rfl,
          by simpa using hq, ?_⟩
        rw [addExpense, if_neg h, hpf]
        simp only [if_neg hq]

theorem addExpense_none_iff (now : Nat) (today desc amt cat : String)
    (l : List Expense) :
    (addExpense now today desc amt cat l).2 = none ↔
      (jsTrim desc ≠ "" ∧ jsTrim amt ≠ "" ∧
        ∃ v, parseFloat amt = some v ∧ jsLeZero v = false) := by
  constructor
  · intro hnone
    rcases addExpense_state_cases now today desc amt cat l with
      ⟨_, hne⟩ | ⟨h1, h2, v, hpf, hlz, _⟩
    · exact absurd hnone hne
    · exact ⟨h1, h2, v, hpf, hlz⟩
  · rintro ⟨h1, h2, v, hpf, hlz⟩
    rw [addExpense,
      if_neg (by simp [beq_eq_false_iff_ne.mpr h1, beq_eq_false_iff_ne.mpr h2] :
        ¬ (jsTrim desc == "" || jsTrim amt == "") = true), hpf]
    simp [hlz]

/-! ## Claim theorems -/

/-- Claim C1: for every valid input — description non-empty after
trimming, amount parsing to a positive number, category from the fixed
set — `addExpense` increases the record count by exactly one, and the new
record is prepended so it appears first, carrying the trimmed
description, the parsed amount, the chosen category and today's date. -/
theorem addExpense_valid_prepends (now : Nat) (today desc amt cat : String)
    (l : List Expense) (q : ℚ) (hd : jsTrim desc ≠ "")
    (hq : parseFloat amt = some (JsFloat.val q)) (hpos : 0 < q)
    (hcat : cat ∈ CATEGORIES) :
    addExpense now today desc amt cat l =
      ({ id := natToString now, description := jsTrim desc, amount := q,
         category := cat, date := today } :: l, none) ∧
    (addExpense now today desc amt cat l).1.length = l.length + 1 ∧
    (addExpense now today desc amt cat l).1.head? =
      some { id := natToString now, description := jsTrim desc, amount := q,
             category := cat, date := today } := by
  have h := addExpense_success now today desc amt cat l q hd hq hpos
  exact ⟨h, by simp [h], by simp [h]⟩

/-- Witness for C1 at the concrete valid input
(`"Coffee"`, `"10"`, `"Food"`). -/
theorem addExpense_valid_prepends_inst :
    addExpense 0 "2024-02-10" "Coffee" "10" "Food" [] =
      ({ id := natToString 0, description := jsTrim "Coffee", amount := 10,
         category := "Food", date := "2024-02-10" } :: [], none) ∧
    (addExpense 0 "2024-02-10" "Coffee" "10" "Food" []).1.length =
      ([] : List Expense).length + 1 ∧
    (addExpense 0 "2024-02-10" "Coffee" "10" "Food" []).1.head? =
      some { id := natToString 0, description := jsTrim "Coffee", amount := 10,
             category := "Food", date := "2024-02-10" } :=
  addExpense_valid_prepends 0 "2024-02-10" "Coffee" "10" "Food" [] 10
    (by decide) parseFloat_ten (by norm_num) (by decide)

/-- Claim C2: `addExpense` rejects (description `""`, amount `"10"`),
(`"Coffee"`, `"-5"`) and (`"Coffee"`, `"abc"`): each reports a validation
error toast and leaves the expense list unchanged. -/
theorem addExpense_rejections (now : Nat) (today cat : String) (l : List Expense) :
    addExpense now today "" "10" cat l = (l, some "Please fill in all fields") ∧
    addExpense now today "Coffee" "-5" cat l =
      (l, some "Please enter a valid amount") ∧
    addExpense now today "Coffee" "abc" cat l =
      (l, some "Please enter a valid amount") := by
  refine ⟨?_, ?_, ?_⟩
  · rw [addExpense,
      if_pos (by decide : (jsTrim "" == "" || jsTrim "10" == "") = true)]
  · rw [addExpense,
      if_neg (by decide : ¬(jsTrim "Coffee" == "" || jsTrim "-5" == "") = true)]
    simp only [parseFloat_neg_five]
    rw [if_pos (by norm_num [jsLeZero] : jsLeZero (JsFloat.val (-5)) = true)]
  · rw [addExpense,
      if_neg (by decide : ¬(jsTrim "Coffee" == "" || jsTrim "abc" == "") = true)]
    simp only [parseFloat_abc]

/-- Claim C10: an amount string that is not a decimal numeral but whose
longest numeric prefix parses to a finite positive number — here
`"10abc"` — is accepted by `addExpense`, which stores the parsed value 10
as the amount, because validation uses `parseFloat` and only checks the
result for `NaN` and positivity. -/
theorem addExpense_accepts_trailing_garbage (now : Nat) (today cat : String)
    (l : List Expense) :
    parseFloat "10abc" = some 10 ∧
    addExpense now today "Coffee" "10abc" cat l =
      ({ id := natToString now, description := jsTrim "Coffee", amount := 10,
         category := cat, date := today } :: l, none) := by
  exact ⟨parseFloat_ten_abc,
    addExpense_success now today "Coffee" "10abc" cat l 10 (by decide)
      parseFloat_ten_abc (by norm_num)⟩

/-- Counterexample to claim C3 as stated, at both unvalidated
conditions.  Category: `"Bogus"` is not in the enumerated set, yet
`addExpense` succeeds and stores it (the UI `select` is what restricts
it).  Finiteness: the amount `"Infinity"` parses to `+Infinity`, a
non-finite value, yet validation passes (`isNaN` is false and
`Infinity <= 0` is false) and a record is created instead of a
`ValidationError`. -/
theorem addExpense_accepts_bad_category :
    ("Bogus" ∉ CATEGORIES ∧
      addExpense 0 "2024-01-01" "Coffee" "10" "Bogus" [] =
        ([{ id := natToString 0, description := jsTrim "Coffee", amount := 10,
            category := "Bogus", date := "2024-01-01" }], none)) ∧
    (parseFloat "Infinity" = some JsFloat.inf ∧
      jsLeZero JsFloat.inf = false ∧
      (addExpense 0 "2024-01-01" "Coffee" "Infinity" "Food" []).2 = none ∧
      (addExpense 0 "2024-01-01" "Coffee" "Infinity" "Food" []).1 ≠ []) := by
  have h := addExpense_success 0 "2024-01-01" "Coffee" "10" "Bogus" [] 10
    (by decide) parseFloat_ten (by norm_num)
  have hinfcond : ¬(jsTrim "Coffee" == "" || jsTrim "Infinity" == "") = true := by
    decide
  have hinf : addExpense 0 "2024-01-01" "Coffee" "Infinity" "Food" [] =
      ([{ id := natToString 0, description := jsTrim "Coffee", amount := 0,
          category := "Food", date := "2024-01-01" }], none) := by
    rw [addExpense, if_neg hinfcond]
    simp only [parseFloat_infinity]
    rfl
  refine ⟨⟨by decide, h⟩, parseFloat_infinity, rfl, ?_, ?_⟩
  · rw [hinf]
  · rw [hinf]
    simp

/-- Claim C3 (amended): `addExpense` fails with a validation error
exactly when the trimmed description or trimmed amount is empty, the
amount parses to `NaN`, or the parsed amount compares `<= 0` in JS
(which rejects `-Infinity` but accepts `+Infinity`); neither the
category nor finiteness is validated.  On error the list is unchanged;
on success exactly one record with the parsed value is prepended. -/
theorem addExpense_validation_characterization (now : Nat)
    (today desc amt cat : String) (l : List Expense) :
    ((addExpense now today desc amt cat l).2 = none ↔
      jsTrim desc ≠ "" ∧ jsTrim amt ≠ "" ∧
        ∃ v, parseFloat amt = some v ∧ jsLeZero v = false) ∧
    ((addExpense now today desc amt cat l).2 ≠ none →
      (addExpense now today desc amt cat l).1 = l) ∧
    ((addExpense now today desc amt cat l).2 = none →
      ∃ v, parseFloat amt = some v ∧ jsLeZero v = false ∧
        (addExpense now today desc amt cat l).1 =
          { id := natToString now, description := jsTrim desc,
            amount := jsFloatToRat v, category := cat, date := today } :: l) ∧
    (parseFloat "Infinity" = some JsFloat.inf ∧ jsLeZero JsFloat.inf = false) := by
  refine ⟨addExpense_none_iff now today desc amt cat l, ?_, ?_,
    parseFloat_infinity, rfl⟩
  · intro herr
    rcases addExpense_state_cases now today desc amt cat l with
      ⟨hst, _⟩ | ⟨_, _, v, _, _, heq⟩
    · exact hst
    · rw [heq] at herr
      simp at herr
  · intro hnone
    rcases addExpense_state_cases now today desc amt cat l with
      ⟨_, hne⟩ | ⟨_, _, v, hpf, hlz, heq⟩
    · exact absurd hnone hne
    · exact ⟨v, hpf, hlz, by rw [heq]⟩

/-- Witness for amended C3: the unparsable amount `"abc"` is rejected
and leaves the list unchanged. -/
theorem addExpense_validation_characterization_inst :
    (addExpense 0 "2024-01-01" "X" "abc" "Food" []).1 = [] :=
  (addExpense_validation_characterization 0 "2024-01-01" "X" "abc" "Food" []).2.1
    (by rw [addExpense,
          if_neg (by decide : ¬(jsTrim "X" == "" || jsTrim "abc" == "") = true)]
        simp [parseFloat_abc])

/-- Claim C4: `deleteExpense id` is a no-op when no record has the id,
and removes exactly the record with the id — keeping all others in
order — when one is present. -/
theorem deleteExpense_spec (id : String) (l : List Expense) :
    ((∀ e ∈ l, e.id ≠ id) → deleteExpense id l = l) ∧
    (∀ pre e post, l = pre ++ e :: post → e.id = id →
      (∀ x ∈ pre, x.id ≠ id) → (∀ x ∈ post, x.id ≠ id) →
      deleteExpense id l = pre ++ post) := by
  constructor
  · intro h
    rw [deleteExpense]
    refine List.filter_eq_self.mpr ?_
    intro e he
    exact bne_iff_ne.mpr (h e he)
  · intro pre e post hl he hpre hpost
    subst hl
    rw [deleteExpense, List.filter_append, List.filter_cons_of_neg]
    · rw [List.filter_eq_self.mpr (fun x hx => bne_iff_ne.mpr (hpre x hx)),
        List.filter_eq_self.mpr (fun x hx => bne_iff_ne.mpr (hpost x hx))]
    · simp [he]

/-- Witness for C4: deleting id `"a"` from a three-record list removes
exactly the middle record. -/
theorem deleteExpense_spec_inst :
    deleteExpense "a"
      [{ id := "b", description := "x", amount := 1, category := "Food", date := "d" },
       { id := "a", description := "y", amount := 2, category := "Food", date := "d" },
       { id := "c", description := "z", amount := 3, category := "Food", date := "d" }] =
      [{ id := "b", description := "x", amount := 1, category := "Food", date := "d" },
       { id := "c", description := "z", amount := 3, category := "Food", date := "d" }] :=
  (deleteExpense_spec "a" _).2
    [{ id := "b", description := "x", amount := 1, category := "Food", date := "d" }]
    { id := "a", description := "y", amount := 2, category := "Food", date := "d" }
    [{ id := "c", description := "z", amount := 3, category := "Food", date := "d" }]
    rfl rfl (by decide) (by decide)

/-- Claim C5: `totalExpenses` is the arithmetic sum of the amount
fields, invariant under permutation of the record list, and 0 on the
empty list. -/
theorem totalExpenses_sum_perm (l l' : List Expense) (h : l.Perm l') :
    totalExpenses l = (l.map (fun e => e.amount)).sum ∧
    totalExpenses l = totalExpenses l' ∧
    totalExpenses [] = 0 := by
  refine ⟨?_, ?_, rfl⟩
  · rw [totalExpenses, foldl_add_amount, zero_add]
  · rw [totalExpenses, totalExpenses, foldl_add_amount, foldl_add_amount,
      List.Perm.sum_eq (h.map _)]

/-- Witness for C5 on a concrete two-element permutation. -/
theorem totalExpenses_sum_perm_inst :
    totalExpenses
        [{ id := "1", description := "x", amount := 3, category := "Food", date := "d" },
         { id := "2", description := "y", amount := 4, category := "Food", date := "d" }] =
      (([{ id := "1", description := "x", amount := 3, category := "Food", date := "d" },
          { id := "2", description := "y", amount := 4, category := "Food", date := "d" }] :
            List Expense).map (fun e => e.amount)).sum ∧
    totalExpenses
        [{ id := "1", description := "x", amount := 3, category := "Food", date := "d" },
         { id := "2", description := "y", amount := 4, category := "Food", date := "d" }] =
      totalExpenses
        [{ id := "2", description := "y", amount := 4, category := "Food", date := "d" },
         { id := "1", description := "x", amount := 3, category := "Food", date := "d" }] ∧
    totalExpenses [] = 0 :=
  totalExpenses_sum_perm _ _ (List.Perm.swap _ _ _)

/-- Claim C6: `monthlyExpenses` sums exactly the amounts of the records
whose date has the reference month and year, excluding all others: it is
additive over the list, counts a same-month record fully, ignores an
other-month record, the month test is equality of parsed year and month,
and on records dated 2024-01-15 ($10) and 2024-02-01 ($20) the reference
month 2024-02 yields 20. -/
theorem monthlyExpenses_month_filter (ty tm : Nat) (l1 l2 : List Expense)
    (e : Expense) :
    monthlyExpenses ty tm (l1 ++ l2) =
      monthlyExpenses ty tm l1 + monthlyExpenses ty tm l2 ∧
    (sameMonthAs ty tm e.date = true → monthlyExpenses ty tm [e] = e.amount) ∧
    (sameMonthAs ty tm e.date = false → monthlyExpenses ty tm [e] = 0) ∧
    (∀ y m d, parseISODate e.date = some (y, m, d) →
      (sameMonthAs ty tm e.date = true ↔ y = ty ∧ m = tm)) ∧
    monthlyExpenses 2024 2
      [{ id := "1", description := "a", amount := 10, category := "Food",
         date := "2024-01-15" },
       { id := "2", description := "b", amount := 20, category := "Food",
         date := "2024-02-01" }] = 20 := by
  refine ⟨?_, ?_, ?_, ?_, ?_⟩
  · rw [monthlyExpenses, monthlyExpenses, monthlyExpenses, List.filter_append,
      foldl_add_amount, foldl_add_amount, foldl_add_amount]
    simp
  · intro h
    simp [monthlyExpenses, List.filter, h]
  · intro h
    simp [monthlyExpenses, List.filter, h]
  · intro y m d hp
    rw [sameMonthAs, hp]
    simp
  · have h1 : sameMonthAs 2024 2 "2024-01-15" = false := by decide
    have h2 : sameMonthAs 2024 2 "2024-02-01" = true := by decide
    simp [monthlyExpenses, List.filter, h1, h2]

/-- Witness for C6: a single same-month record is counted fully. -/
theorem monthlyExpenses_month_filter_inst :
    monthlyExpenses 2024 2
        [{ id := "2", description := "b", amount := 20, category := "Food",
           date := "2024-02-01" }] =
      ({ id := "2", description := "b", amount := 20, category := "Food",
         date := "2024-02-01" } : Expense).amount :=
  (monthlyExpenses_month_filter 2024 2 [] []
      { id := "2", description := "b", amount := 20, category := "Food",
        date := "2024-02-01" }).2.1 (by decide)

theorem decodeExpense_encodeExpense (e : Expense) :
    decodeExpense (encodeExpense e) = some e := rfl

theorem decodeExpenses_save (l : List Expense) :
    decodeExpenses (save l) = some l := by
  rw [save, decodeExpenses]
  induction l with
  | nil => rfl
  | cons e t ih =>
    rw [List.map_cons, List.mapM_cons, decodeExpense_encodeExpense, ih]
    rfl

/-- Counterexample to claim C8 as stated: a slot holding the
well-formed JSON text `"42"` does not deserialize as an expense list,
yet `setExpenses(JSON.parse(savedExpenses))` adopts the parsed value as
the state unvalidated instead of loading the empty sequence. -/
theorem load_adopts_untyped_json :
    decodeExpenses (Json.num 42) = none ∧
    load (Slot.wellFormed (Json.num 42)) = LoadedState.raw (Json.num 42) ∧
    load (Slot.wellFormed (Json.num 42)) ≠ LoadedState.records [] := by
  refine ⟨rfl, rfl, ?_⟩
  intro h
  exact LoadedState.noConfusion h

/-- Claim C8 (amended): loading after saving reproduces the same record
list (same ids, fields and order); an absent slot, and a slot whose
text fails JSON parsing (the swallowed SyntaxError), load as the empty
sequence; but a slot holding well-formed JSON that is not an expense
array is adopted as the state as-is, unvalidated. -/
theorem load_save_roundtrip (l : List Expense) :
    load (Slot.wellFormed (save l)) = LoadedState.records l ∧
    load Slot.absent = LoadedState.records [] ∧
    load Slot.malformed = LoadedState.records [] ∧
    (∀ j, decodeExpenses j = none →
      load (Slot.wellFormed j) = LoadedState.raw j) ∧
    (∀ j l', decodeExpenses j = some l' →
      load (Slot.wellFormed j) = LoadedState.records l') := by
  refine ⟨?_, rfl, rfl, ?_, ?_⟩
  · show (match decodeExpenses (save l) with
      | some l' => LoadedState.records l'
      | none => LoadedState.raw (save l)) = LoadedState.records l
    rw [decodeExpenses_save]
  · intro j h
    show (match decodeExpenses j with
      | some l' => LoadedState.records l'
      | none => LoadedState.raw j) = LoadedState.raw j
    rw [h]
  · intro j l' h
    show (match decodeExpenses j with
      | some l'' => LoadedState.records l''
      | none => LoadedState.raw j) = LoadedState.records l'
    rw [h]

/-- Witness for amended C8: round trip at the empty list, the absent
and malformed slots, and a wrong-shape slot (`null`) adopted raw. -/
theorem load_save_roundtrip_inst :
    load (Slot.wellFormed (save [])) = LoadedState.records [] ∧
    load Slot.absent = LoadedState.records [] ∧
    load Slot.malformed = LoadedState.records [] ∧
    load (Slot.wellFormed Json.null) = LoadedState.raw Json.null :=
  ⟨(load_save_roundtrip []).1, (load_save_roundtrip []).2.1,
   (load_save_roundtrip []).2.2.1,
   (load_save_roundtrip []).2.2.2.1 Json.null rfl⟩

theorem insertDesc_ne_nil (x : String × ℚ) (l : List (String × ℚ)) :
    insertDesc x l ≠ [] := by
  cases l with
  | nil => simp [insertDesc]
  | cons y ys =>
    rw [insertDesc]
    split <;> simp

theorem updateTotals_ne_nil (acc : List (String × ℚ)) (cat : String) (amt : ℚ) :
    updateTotals acc cat amt ≠ [] := by
  cases acc with
  | nil => simp [updateTotals]
  | cons p rest =>
    obtain ⟨c, v⟩ := p
    rw [updateTotals]
    split <;> simp

theorem foldl_updateTotals_ne_nil (es : List Expense) :
    ∀ acc : List (String × ℚ), acc ≠ [] →
      es.foldl (fun acc e => updateTotals acc e.category e.amount) acc ≠ [] := by
  induction es with
  | nil => intro acc h; simpa using h
  | cons e t ih =>
    intro acc _
    rw [List.foldl_cons]
    exact ih _ (updateTotals_ne_nil acc e.category e.amount)

theorem categoryTotals_ne_nil (l : List Expense) (h : l ≠ []) :
    categoryTotals l ≠ [] := by
  cases l with
  | nil => exact absurd rfl h
  | cons e t =>
    rw [categoryTotals, List.foldl_cons]
    exact foldl_updateTotals_ne_nil t _ (updateTotals_ne_nil [] e.category e.amount)

theorem sortDesc_head (xs : List (String × ℚ)) (hne : xs ≠ []) :
    ∃ m pre post, (sortDesc xs).head? = some m ∧ xs = pre ++ m :: post ∧
      (∀ p ∈ pre, p.2 < m.2) ∧ (∀ p ∈ post, p.2 ≤ m.2) := by
  induction xs with
  | nil => exact absurd rfl hne
  | cons x t ih =>
    cases t with
    | nil =>
      exact ⟨x, [], [], rfl, rfl, by simp, by simp⟩
    | cons y u =>
      obtain ⟨m, pre, post, hhead, hdecomp, hpre, hpost⟩ := ih (by simp)
      obtain ⟨tail, htail⟩ : ∃ tl, sortDesc (y :: u) = m :: tl := by
        cases hs : sortDesc (y :: u) with
        | nil => rw [hs] at hhead; cases hhead
        | cons a b =>
          rw [hs] at hhead
          exact ⟨b, by rw [Option.some.inj hhead]⟩
      by_cases hlt : x.2 < m.2
      · refine ⟨m, x :: pre, post, ?_, ?_, ?_, hpost⟩
        · show (insertDesc x (sortDesc (y :: u))).head? = some m
          rw [htail, insertDesc, if_pos hlt]
          rfl
        · rw [hdecomp]
          rfl
        · intro p hp
          rcases List.mem_cons.mp hp with hpx | hppre
          · rw [hpx]; exact hlt
          · exact hpre p hppre
      · have hx : m.2 ≤ x.2 := not_lt.mp hlt
        refine ⟨x, [], y :: u, ?_, rfl, by simp, ?_⟩
        · show (insertDesc x (sortDesc (y :: u))).head? = some x
          rw [htail, insertDesc, if_neg hlt]
          rfl
        · intro p hp
          rw [hdecomp] at hp
          rcases List.mem_append.mp hp with h1 | h2
          · exact le_trans (le_of_lt (hpre p h1)) hx
          · rcases List.mem_cons.mp h2 with hpm | hppost
            · rw [hpm]; exact hx
            · exact le_trans (hpost p hppost) hx

/-- Claim C7: `topCategory` is `none` on an empty record list and is
otherwise the entry of `categoryTotals` with the largest summed amount,
ties broken in favour of the category first encountered during the
summation pass; on records [{Food,5},{Transport,5},{Food,3}] it yields
Food with 8. -/
theorem topCategory_first_max (l : List Expense) :
    (l = [] → topCategory l = none) ∧
    (l ≠ [] → (topCategory l).isSome = true) ∧
    (∀ c v, topCategory l = some (c, v) →
      ∃ pre post, categoryTotals l = pre ++ (c, v) :: post ∧
        (∀ p ∈ pre, p.2 < v) ∧ (∀ p ∈ post, p.2 ≤ v)) ∧
    topCategory
      [{ id := "1", description := "a", amount := 5, category := "Food", date := "d" },
       { id := "2", description := "b", amount := 5, category := "Transport", date := "d" },
       { id := "3", description := "c", amount := 3, category := "Food", date := "d" }] =
      some ("Food", 8) := by
  refine ⟨?_, ?_, ?_, ?_⟩
  · intro h
    subst h
    rfl
  · intro h
    obtain ⟨m, _, _, hhead, _⟩ := sortDesc_head _ (categoryTotals_ne_nil l h)
    simp [topCategory, hhead]
  · intro c v htc
    have h1 : categoryTotals l ≠ [] := by
      intro hnil
      rw [topCategory, hnil] at htc
      cases htc
    obtain ⟨m, pre, post, hhead, hdecomp, hpre, hpost⟩ := sortDesc_head _ h1
    rw [topCategory, hhead] at htc
    have hm : m = (c, v) := Option.some.inj htc
    subst hm
    exact ⟨pre, post, hdecomp, hpre, hpost⟩
  · norm_num [topCategory, categoryTotals, updateTotals, sortDesc, insertDesc]

/-- Witness for C7: a nonempty record list has a top category. -/
theorem topCategory_first_max_inst :
    (topCategory
        [{ id := "1", description := "a", amount := 5, category := "Food",
           date := "d" }]).isSome = true :=
  (topCategory_first_max _).2.1 (by simp)

theorem digitChar_inj_lt_ten :
    ∀ a < 10, ∀ b < 10, Nat.digitChar a = Nat.digitChar b → a = b := by decide

theorem map_digitChar_inj :
    ∀ l1 l2 : List Nat, (∀ d ∈ l1, d < 10) → (∀ d ∈ l2, d < 10) →
      l1.map Nat.digitChar = l2.map Nat.digitChar → l1 = l2 := by
  intro l1
  induction l1 with
  | nil =>
    intro l2 _ _ h
    cases l2 with
    | nil => rfl
    | cons b u => simp at h
  | cons a t ih =>
    intro l2 h1 h2 h
    cases l2 with
    | nil => simp at h
    | cons b u =>
      simp only [List.map_cons, List.cons.injEq] at h
      obtain ⟨hab, htu⟩ := h
      have hab' : a = b :=
        digitChar_inj_lt_ten a (h1 a (List.mem_cons_self a t))
          b (h2 b (List.mem_cons_self b u)) hab
      rw [hab',
        ih u (fun d hd => h1 d (List.mem_cons_of_mem a hd))
          (fun d hd => h2 d (List.mem_cons_of_mem b hd)) htu]

theorem natToString_inj : ∀ m n : Nat, natToString m = natToString n → m = n := by
  have key : ∀ n : Nat, n ≠ 0 →
      ¬("0" = (⟨((Nat.digits 10 n).map Nat.digitChar).reverse⟩ : String)) := by
    intro n hn h
    have hd : ['0'] = ((Nat.digits 10 n).map Nat.digitChar).reverse :=
      congrArg String.data h
    have hmap : (Nat.digits 10 n).map Nat.digitChar = ['0'] := by
      have := congrArg List.reverse hd
      simpa using this.symm
    have hdig : Nat.digits 10 n = [0] := by
      refine map_digitChar_inj _ [0]
        (fun d hdm => Nat.digits_lt_base (by norm_num) hdm) (by simp) ?_
      rw [hmap]
      rfl
    have := Nat.ofDigits_digits 10 n
    rw [hdig] at this
    simp [Nat.ofDigits] at this
    exact hn this.symm
  intro m n h
  rw [natToString, natToString] at h
  by_cases hm : m = 0 <;> by_cases hn : n = 0
  · rw [hm, hn]
  · rw [if_pos hm, if_neg hn] at h
    exact absurd h (key n hn)
  · rw [if_neg hm, if_pos hn] at h
    exact absurd h.symm (key m hm)
  · rw [if_neg hm, if_neg hn] at h
    have hd : ((Nat.digits 10 m).map Nat.digitChar).reverse =
        ((Nat.digits 10 n).map Nat.digitChar).reverse := congrArg String.data h
    have hmap := List.reverse_injective hd
    have hdig : Nat.digits 10 m = Nat.digits 10 n :=
      map_digitChar_inj _ _ (fun d hdm => Nat.digits_lt_base (by norm_num) hdm)
        (fun d hdn => Nat.digits_lt_base (by norm_num) hdn) hmap
    have h1 := Nat.ofDigits_digits 10 m
    have h2 := Nat.ofDigits_digits 10 n
    rw [← h1, ← h2, hdig]

theorem run_aux (ops : List Op) :
    ∀ s : List Expense,
      s.Pairwise (fun a b => a.id ≠ b.id) →
      (∀ e ∈ s, ∀ t ∈ addTimes ops, e.id ≠ natToString t) →
      (addTimes ops).Pairwise (fun a b => a ≠ b) →
      (ops.foldl applyOp s).Pairwise (fun a b => a.id ≠ b.id) := by
  induction ops with
  | nil =>
    intro s hs _ _
    simpa using hs
  | cons op rest ih =>
    intro s hs hfresh hdist
    rw [List.foldl_cons]
    cases op with
    | remove id =>
      have hsub : (deleteExpense id s).Sublist s := List.filter_sublist s
      refine ih (applyOp s (Op.remove id)) ?_ ?_ ?_
      · exact List.Pairwise.sublist hsub hs
      · intro e he t ht
        exact hfresh e (hsub.mem he) t ht
      · exact hdist
    | add now today d a c =>
      have hcons : addTimes (Op.add now today d a c :: rest) = now :: addTimes rest := rfl
      rw [hcons] at hfresh hdist
      obtain ⟨hnow, hrest⟩ := List.pairwise_cons.mp hdist
      rcases addExpense_state_cases now today d a c s with ⟨hst, _⟩ | ⟨_, _, q, _, _, heq⟩
      · have happ : applyOp s (Op.add now today d a c) = s := by
          simp only [applyOp]
          exact hst
        rw [happ]
        refine ih s hs ?_ hrest
        intro e he t ht
        exact hfresh e he t (List.mem_cons_of_mem now ht)
      · have happ : applyOp s (Op.add now today d a c) =
            { id := natToString now, description := jsTrim d,
              amount := jsFloatToRat q, category := c, date := today } :: s := by
          simp only [applyOp]
          rw [heq]
        rw [happ]
        refine ih _ ?_ ?_ hrest
        · refine List.pairwise_cons.mpr ⟨?_, hs⟩
          intro b hb
          exact (hfresh b hb now (List.mem_cons_self now _)).symm
        · intro e he t ht
          rcases List.mem_cons.mp he with he1 | he2
          · rw [he1]
            intro hEq
            exact hnow t ht (natToString_inj now t hEq)
          · exact hfresh e he2 t (List.mem_cons_of_mem now ht)

/-- Counterexample to claim C9 as stated: two adds whose `Date.now()`
clock reads the same value (two submissions within one millisecond)
reach a state with a duplicated id `"0"`. -/
theorem run_duplicate_ids :
    ¬ (run [Op.add 0 "2024-01-01" "A" "1" "Food",
            Op.add 0 "2024-01-01" "B" "1" "Food"]).Pairwise
        (fun a b => a.id ≠ b.id) := by
  have h1 := addExpense_success 0 "2024-01-01" "A" "1" "Food" [] 1
    (by decide) parseFloat_one (by norm_num)
  have h2 := addExpense_success 0 "2024-01-01" "B" "1" "Food"
    [{ id := natToString 0, description := jsTrim "A", amount := 1,
       category := "Food", date := "2024-01-01" }] 1
    (by decide) parseFloat_one (by norm_num)
  intro h
  rw [run] at h
  simp only [List.foldl_cons, List.foldl_nil, applyOp, h1] at h
  rw [h2] at h
  obtain ⟨hne, _⟩ := List.pairwise_cons.mp h
  exact hne _ (List.mem_cons_self _ _) rfl

/-- Claim C9 (amended): every state reachable from the empty list by
adds and removes has pairwise-distinct record ids, provided the clock
values of the add intents are pairwise distinct (the code derives ids
from `Date.now()`, so two adds in the same millisecond violate the
invariant, as the counterexample shows). -/
theorem run_ids_distinct (ops : List Op)
    (h : (addTimes ops).Pairwise (fun a b => a ≠ b)) :
    (run ops).Pairwise (fun a b => a.id ≠ b.id) :=
  run_aux ops [] List.Pairwise.nil (by simp) h

/-- Witness for amended C9 on a concrete add/remove sequence. -/
theorem run_ids_distinct_inst :
    (run [Op.add 0 "2024-01-01" "A" "1" "Food", Op.remove "0",
          Op.add 5 "2024-01-01" "B" "2" "Food"]).Pairwise
      (fun a b => a.id ≠ b.id) :=
  run_ids_distinct _ (by decide)
